import Mathlib

/-!
# Verification of the VideoNest SDK chunked-upload engine

Shallow embedding of `src/utils/uploadOptimizationManager.ts` (both the
fixed-concurrency and the adaptive-concurrency variants contained in that
file) and of the upload orchestration in `src/core/client.ts`, together
with proofs and refutations of the specification claims about them.

File sizes, byte offsets and counters are modelled as `ℕ`; speed samples
and progress percentages, which the source computes with JS number
arithmetic on values far from overflow, are modelled as `ℚ`.  A separate
model with IEEE special values (`JsNum`) is used where the behaviour of
division by zero matters.
-/

namespace VideonestSDK

/-- Function `calculateOptimalChunkSize` from `uploadOptimizationManager.ts`
(one-argument fixed variant; the adaptive variant called with
`connectionSpeed = null` takes none of the speed branches and computes the
same value).  `Math.floor` is the identity on these integer tier sizes. -/
def calculateOptimalChunkSize (fileSize : ℕ) : ℕ :=
  if fileSize < 50 * 1024 * 1024 then 8 * 1024 * 1024
  else if fileSize < 500 * 1024 * 1024 then 25 * 1024 * 1024
  else if fileSize < 2 * 1024 * 1024 * 1024 then 50 * 1024 * 1024
  else 100 * 1024 * 1024

/-- The constructor assignment `this.totalChunks = Math.ceil(file.size / this.chunkSize)` of the
`UploadOptimizationManager` constructor, with
`chunkSize = calculateOptimalChunkSize(file.size)`. -/
def totalChunksOf (fileSize : ℕ) : ℕ :=
  (fileSize + calculateOptimalChunkSize fileSize - 1) / calculateOptimalChunkSize fileSize

/-- The assignment `const start = index * this.chunkSize` from `uploadChunk`. -/
def chunkStart (fileSize i : ℕ) : ℕ :=
  i * calculateOptimalChunkSize fileSize

/-- The assignment `const end = Math.min(start + this.chunkSize, this.file.size)` from
`uploadChunk`. -/
def chunkEnd (fileSize i : ℕ) : ℕ :=
  min (chunkStart fileSize i + calculateOptimalChunkSize fileSize) fileSize

/-- The value `chunk.size` of `file.slice(start, end)`: truncated subtraction models
the clamping `File.slice` performs when `start` exceeds the file size. -/
def chunkByteSize (fileSize i : ℕ) : ℕ :=
  chunkEnd fileSize i - chunkStart fileSize i

theorem chunkSize_pos (fileSize : ℕ) : 0 < calculateOptimalChunkSize fileSize := by
  unfold calculateOptimalChunkSize
  split <;> [norm_num; split <;> [norm_num; split <;> norm_num]]

theorem fileSize_le_total_mul (fileSize : ℕ) :
    fileSize ≤ totalChunksOf fileSize * calculateOptimalChunkSize fileSize := by
  set c := calculateOptimalChunkSize fileSize with hc
  have hcpos : 0 < c := chunkSize_pos fileSize
  rcases Nat.eq_zero_or_pos fileSize with h0 | hpos
  · simp [h0]
  · unfold totalChunksOf
    rw [← hc]
    have h1 : fileSize + c - 1 < ((fileSize + c - 1) / c + 1) * c :=
      (Nat.div_lt_iff_lt_mul hcpos).mp (Nat.lt_succ_self _)
    have h2 : ((fileSize + c - 1) / c + 1) * c = (fileSize + c - 1) / c * c + c := by ring
    omega

theorem total_mul_lt (fileSize : ℕ) :
    totalChunksOf fileSize * calculateOptimalChunkSize fileSize
      < fileSize + calculateOptimalChunkSize fileSize := by
  set c := calculateOptimalChunkSize fileSize with hc
  have hcpos : 0 < c := chunkSize_pos fileSize
  unfold totalChunksOf
  rw [← hc]
  have h1 : (fileSize + c - 1) / c * c ≤ fileSize + c - 1 := Nat.div_mul_le_self _ _
  omega

theorem totalChunks_pos (fileSize : ℕ) (h : 1 ≤ fileSize) : 0 < totalChunksOf fileSize := by
  by_contra hn
  have h0 : totalChunksOf fileSize = 0 := by omega
  have := fileSize_le_total_mul fileSize
  rw [h0] at this
  omega

theorem chunkStart_lt_fileSize (fileSize i : ℕ) (hi : i < totalChunksOf fileSize) :
    chunkStart fileSize i < fileSize := by
  have hcpos := chunkSize_pos fileSize
  have h2 := total_mul_lt fileSize
  unfold chunkStart
  have h3 : (i + 1) * calculateOptimalChunkSize fileSize
      ≤ totalChunksOf fileSize * calculateOptimalChunkSize fileSize :=
    Nat.mul_le_mul_right _ (by omega)
  have h4 : (i + 1) * calculateOptimalChunkSize fileSize
      = i * calculateOptimalChunkSize fileSize + calculateOptimalChunkSize fileSize := by ring
  omega

theorem chunk_nonempty (fileSize i : ℕ) (hi : i < totalChunksOf fileSize) :
    chunkStart fileSize i < chunkEnd fileSize i := by
  have hcpos := chunkSize_pos fileSize
  have h1 := chunkStart_lt_fileSize fileSize i hi
  unfold chunkEnd
  omega

theorem chunkByteSize_pos (fileSize i : ℕ) (hi : i < totalChunksOf fileSize) :
    0 < chunkByteSize fileSize i := by
  have := chunk_nonempty fileSize i hi
  unfold chunkByteSize
  omega

theorem chunk_mem_unique (fileSize b : ℕ) (hb : b < fileSize) :
    ∃! i, i < totalChunksOf fileSize ∧ chunkStart fileSize i ≤ b ∧ b < chunkEnd fileSize i := by
  set c := calculateOptimalChunkSize fileSize with hc
  have hcpos : 0 < c := chunkSize_pos fileSize
  have hcover := fileSize_le_total_mul fileSize
  refine ⟨b / c, ⟨?_, ?_, ?_⟩, ?_⟩
  · rw [Nat.div_lt_iff_lt_mul hcpos]
    calc b < fileSize := hb
    _ ≤ totalChunksOf fileSize * c := hcover
  · unfold chunkStart
    rw [← hc]
    exact Nat.div_mul_le_self b c
  · unfold chunkEnd chunkStart
    rw [← hc]
    have h1 : b < (b / c + 1) * c := (Nat.div_lt_iff_lt_mul hcpos).mp (Nat.lt_succ_self _)
    have h2 : b / c * c + c = (b / c + 1) * c := by ring
    omega
  · rintro j ⟨hj, hjs, hje⟩
    unfold chunkStart at hjs
    unfold chunkEnd chunkStart at hje
    rw [← hc] at hjs hje
    have hlt : b < (j + 1) * c := by
      have : (j + 1) * c = j * c + c := by ring
      omega
    exact (Nat.div_eq_of_lt_le hjs hlt).symm

theorem totalChunks_eq_ceil (fileSize : ℕ) (h : 1 ≤ fileSize) :
    (totalChunksOf fileSize : ℤ)
      = ⌈(fileSize : ℚ) / (calculateOptimalChunkSize fileSize : ℚ)⌉ := by
  set c := calculateOptimalChunkSize fileSize with hc
  have hcpos : 0 < c := chunkSize_pos fileSize
  have hcq : (0 : ℚ) < (c : ℚ) := by exact_mod_cast hcpos
  have h1 := fileSize_le_total_mul fileSize
  have h2 := total_mul_lt fileSize
  rw [← hc] at h1 h2
  symm
  rw [Int.ceil_eq_iff]
  constructor
  · rw [lt_div_iff₀ hcq]
    push_cast
    have h2q : (totalChunksOf fileSize : ℚ) * c < fileSize + c := by exact_mod_cast h2
    linarith
  · rw [div_le_iff₀ hcq]
    push_cast
    exact_mod_cast h1

/-- C1.  For every file of at least one byte the manager's chunking is a
partition of `[0, fileSize)`: the chunk size is positive, `totalChunks` is
the ceiling of `fileSize / chunkSize`, every chunk's byte range is
non-empty, and every byte of the file lies in exactly one chunk range
(no overlap, no gap). -/
theorem chunking_partitions_file (fileSize : ℕ) (h : 1 ≤ fileSize) :
    0 < calculateOptimalChunkSize fileSize ∧
    (totalChunksOf fileSize : ℤ)
      = ⌈(fileSize : ℚ) / (calculateOptimalChunkSize fileSize : ℚ)⌉ ∧
    (∀ i, i < totalChunksOf fileSize → chunkStart fileSize i < chunkEnd fileSize i) ∧
    (∀ i, i < totalChunksOf fileSize → chunkEnd fileSize i ≤ fileSize) ∧
    (∀ b, b < fileSize →
      ∃! i, i < totalChunksOf fileSize ∧ chunkStart fileSize i ≤ b ∧ b < chunkEnd fileSize i) :=
  ⟨chunkSize_pos fileSize,
   totalChunks_eq_ceil fileSize h,
   fun i hi => chunk_nonempty fileSize i hi,
   fun i _ => min_le_right _ _,
   fun b hb => chunk_mem_unique fileSize b hb⟩

theorem chunking_partitions_file_witness :
    1 ≤ 52428801 ∧
      (0 < calculateOptimalChunkSize 52428801 ∧
       (totalChunksOf 52428801 : ℤ)
         = ⌈(52428801 : ℚ) / (calculateOptimalChunkSize 52428801 : ℚ)⌉ ∧
       (∀ i, i < totalChunksOf 52428801 → chunkStart 52428801 i < chunkEnd 52428801 i) ∧
       (∀ i, i < totalChunksOf 52428801 → chunkEnd 52428801 i ≤ 52428801) ∧
       (∀ b, b < 52428801 →
         ∃! i, i < totalChunksOf 52428801 ∧ chunkStart 52428801 i ≤ b ∧ b < chunkEnd 52428801 i)) :=
  ⟨by norm_num, chunking_partitions_file 52428801 (by norm_num)⟩

/-- C2 counterexample.  `calculateOptimalChunkSize 0` does not signal an
error: it returns the smallest tier (8 MiB), and the manager constructor
then computes `totalChunks = Math.ceil(0 / 8MiB) = 0`, so a zero-byte file
yields an upload session with zero parts instead of being rejected. -/
theorem zero_byte_file_not_rejected :
    calculateOptimalChunkSize 0 = 8 * 1024 * 1024 ∧ totalChunksOf 0 = 0 := by
  constructor <;> decide

/-- C2 amended.  For `fileSize = 0` the part-size strategy returns the
smallest tier (8 MiB = 8388608 bytes) without signalling any error, the
manager computes `totalChunks = 0`, and consequently no chunk range
exists: the zero-byte upload proceeds with zero parts rather than being
rejected before part creation. -/
theorem zero_byte_file_zero_parts :
    calculateOptimalChunkSize 0 = 8388608 ∧
    totalChunksOf 0 = 0 ∧
    ∀ i, ¬ (i < totalChunksOf 0) := by
  refine ⟨by decide, by decide, ?_⟩
  intro i
  simp [totalChunksOf, calculateOptimalChunkSize]

/-! ## Progress reporting (C3)

Both progress observation points of the manager — the `xhr.upload.onprogress`
handler and `getUploadStats` — compute
`(this.totalBytesUploaded / this.file.size) * 100`, where
`totalBytesUploaded` is the sum of the per-chunk uploaded byte counts. -/

/-- The expression `(this.totalBytesUploaded / this.file.size) * 100` from
`uploadChunk`'s `onprogress` handler and from `getUploadStats`. -/
def progressPercentage (bytesUploaded fileSize : ℚ) : ℚ :=
  bytesUploaded / fileSize * 100

/-- The reduction `Array.from(this.chunkBytesUploaded.values()).reduce((sum, bytes) => sum + bytes, 0)`:
the map holds one entry per chunk index `0 .. totalChunks-1`
(initialised in `upload`). -/
def totalBytesUploadedOf (fileSize : ℕ) (chunkBytes : ℕ → ℚ) : ℚ :=
  ∑ i in Finset.range (totalChunksOf fileSize), chunkBytes i

/-- Modelled from the spec: the flat per-part aggregation formula
`overall = (sum over parts of partProgressPercent) / totalParts`, in which
every part contributes equally regardless of its byte size. -/
def flatOverallProgress (partPct : ℕ → ℚ) (totalParts : ℕ) : ℚ :=
  (∑ i in Finset.range totalParts, partPct i) / totalParts

/-- C3 counterexample.  For a 52428801-byte file (three 25 MiB-sized parts,
the last one a single byte), completing part 0 alone yields a reported
progress of `26214400 / 52428801 * 100 ≈ 50.0`, not the
`100 / 3 ≈ 33.3` that the flat per-part formula would give: the code's
progress is byte-weighted, not flat per-part. -/
theorem progress_not_flat_per_part :
    totalChunksOf 52428801 = 3 ∧
    chunkByteSize 52428801 0 = 26214400 ∧
    progressPercentage
        (totalBytesUploadedOf 52428801 (fun i => if i = 0 then 26214400 else 0)) 52428801
      ≠ flatOverallProgress (fun i => if i = 0 then 100 else 0) (totalChunksOf 52428801) := by
  have h3 : totalChunksOf 52428801 = 3 := by decide
  refine ⟨h3, by decide, ?_⟩
  unfold totalBytesUploadedOf flatOverallProgress progressPercentage
  rw [h3]
  simp only [Finset.sum_range_succ, Finset.sum_range_zero]
  norm_num

/-- C3 amended.  The overall progress reported to `onProgress` (and by
`getUploadStats`) is byte-weighted, not flat per-part:
`overall = (totalBytesUploaded / fileSize) * 100`, which equals the sum of
the per-part progress percentages weighted by each part's byte share
`partSize / fileSize`; in particular, completing part 0 alone moves the
overall progress by `chunkByteSize(0) / fileSize * 100` percentage points,
not by `100 / totalChunks`. -/
theorem progress_byte_weighted (fileSize : ℕ) (h : 1 ≤ fileSize) (chunkBytes : ℕ → ℚ) :
    progressPercentage (totalBytesUploadedOf fileSize chunkBytes) fileSize
      = ∑ i in Finset.range (totalChunksOf fileSize),
          (chunkBytes i / (chunkByteSize fileSize i : ℚ) * 100)
            * ((chunkByteSize fileSize i : ℚ) / (fileSize : ℚ)) ∧
    progressPercentage
        (totalBytesUploadedOf fileSize
          (fun i => if i = 0 then (chunkByteSize fileSize 0 : ℚ) else 0)) fileSize
      = (chunkByteSize fileSize 0 : ℚ) / (fileSize : ℚ) * 100 := by
  have hfs : (fileSize : ℚ) ≠ 0 := by
    have hpos : 0 < fileSize := by omega
    exact_mod_cast hpos.ne'
  constructor
  · unfold progressPercentage totalBytesUploadedOf
    rw [Finset.sum_div, Finset.sum_mul]
    refine Finset.sum_congr rfl ?_
    intro i hi
    have hs : (chunkByteSize fileSize i : ℚ) ≠ 0 := by
      have := chunkByteSize_pos fileSize i (Finset.mem_range.mp hi)
      exact_mod_cast this.ne'
    field_simp
  · unfold progressPercentage totalBytesUploadedOf
    rw [Finset.sum_ite_eq' (Finset.range (totalChunksOf fileSize)) 0
        (fun _ => (chunkByteSize fileSize 0 : ℚ))]
    rw [if_pos (Finset.mem_range.mpr (totalChunks_pos fileSize h))]

theorem progress_byte_weighted_witness :
    1 ≤ 52428801 ∧
    (progressPercentage (totalBytesUploadedOf 52428801 (fun _ => 1)) 52428801
      = ∑ i in Finset.range (totalChunksOf 52428801),
          ((1 : ℚ) / (chunkByteSize 52428801 i : ℚ) * 100)
            * ((chunkByteSize 52428801 i : ℚ) / (52428801 : ℚ)) ∧
     progressPercentage
        (totalBytesUploadedOf 52428801
          (fun i => if i = 0 then (chunkByteSize 52428801 0 : ℚ) else 0)) 52428801
      = (chunkByteSize 52428801 0 : ℚ) / (52428801 : ℚ) * 100) :=
  ⟨by norm_num, progress_byte_weighted 52428801 (by norm_num) (fun _ => 1)⟩

/-! ## Connection speed detector (C7)

`ConnectionSpeedDetector` from the adaptive variant (the fixed variant is
the same class without the two advisory methods).  Sample values are
modelled as exact rationals. -/

/-- The sample `const speedMbps = (chunkSize * 8) / (uploadTime / 1000) / 1_000_000`. -/
def speedMbps (chunkSize uploadTime : ℚ) : ℚ :=
  chunkSize * 8 / (uploadTime / 1000) / 1000000

structure SpeedDetector where
  samples : List ℚ
  avgSpeed : Option ℚ
  globalThroughput : ℚ
deriving DecidableEq

/-- The field initialisers: `samples = []`, `avgSpeed = null`,
`globalThroughput = 0`. -/
def initDetector : SpeedDetector := ⟨[], none, 0⟩

/-- The `forEach` accumulation `weightedSum += speed * (index + 1)`. -/
def weightedSum (samples : List ℚ) : ℚ :=
  (samples.enum.map (fun p => p.2 * ((p.1 : ℚ) + 1))).sum

/-- The `forEach` accumulation `totalWeight += index + 1`. -/
def totalWeight (samples : List ℚ) : ℚ :=
  (samples.enum.map (fun p => ((p.1 : ℚ) + 1))).sum

/-- Method `calculateWeightedAverage` of `ConnectionSpeedDetector`. -/
def calculateWeightedAverage (samples : List ℚ) : ℚ :=
  if samples.length = 0 then 0
  else weightedSum samples / totalWeight samples

/-- Method `recordChunkUpload`: push the new sample, `shift()` the oldest away
when more than five are retained, recompute `avgSpeed` and
`globalThroughput`, and return the new average. -/
def recordChunkUpload (d : SpeedDetector) (chunkSize uploadTime : ℚ) :
    SpeedDetector × ℚ :=
  let s := speedMbps chunkSize uploadTime
  let pushed := d.samples ++ [s]
  let samples1 := if 5 < pushed.length then pushed.tail else pushed
  let avg := calculateWeightedAverage samples1
  (⟨samples1, some avg, samples1.sum⟩, avg)

/-- Method `shouldReduceConcurrency`:
`avgSpeed !== null && (avgSpeed < 5 || globalThroughput < 10)`. -/
def shouldReduceConcurrency (d : SpeedDetector) : Bool :=
  match d.avgSpeed with
  | none => false
  | some a => decide (a < 5) || decide (d.globalThroughput < 10)

/-- Method `shouldIncreaseConcurrency`:
`avgSpeed !== null && avgSpeed > 20 && globalThroughput > 50 && samples.length >= 3`. -/
def shouldIncreaseConcurrency (d : SpeedDetector) : Bool :=
  match d.avgSpeed with
  | none => false
  | some a =>
      decide (20 < a) && decide (50 < d.globalThroughput)
        && decide (3 ≤ d.samples.length)

/-- Folding a whole run of recorded uploads through the detector. -/
def recordAll (d : SpeedDetector) (inputs : List (ℚ × ℚ)) : SpeedDetector :=
  inputs.foldl (fun d p => (recordChunkUpload d p.1 p.2).1) d

/-- The five most recent elements of a list, in order. -/
def lastFive (l : List ℚ) : List ℚ := l.drop (l.length - 5)

theorem window_step (L : List ℚ) (s : ℚ) :
    (if 5 < (lastFive L ++ [s]).length then (lastFive L ++ [s]).tail
     else lastFive L ++ [s]) = lastFive (L ++ [s]) := by
  unfold lastFive
  rcases le_or_lt L.length 4 with h4 | h4
  · rw [if_neg]
    · have h0 : L.length - 5 = 0 := by omega
      have h1 : (L ++ [s]).length - 5 = 0 := by simp; omega
      rw [h0, h1]
      simp
    · simp
      omega
  · rw [if_pos (show 5 < (L.drop (L.length - 5) ++ [s]).length by simp; omega)]
    have hA : (L.drop (L.length - 5) ++ [s]).tail = L.drop (L.length - 4) ++ [s] := by
      have hne : L.drop (L.length - 5) ≠ [] := by
        intro hcon
        have := congrArg List.length hcon
        simp at this
        omega
      cases hd : L.drop (L.length - 5) with
      | nil => exact absurd hd hne
      | cons a t =>
          have ht : t = L.drop (L.length - 4) := by
            have hdr := congrArg (List.drop 1) hd
            rw [List.drop_drop] at hdr
            have he : L.length - 5 + 1 = L.length - 4 := by omega
            rw [he] at hdr
            simpa using hdr.symm
          simp [ht]
    rw [hA]
    have hB : (L ++ [s]).drop ((L ++ [s]).length - 5) = L.drop (L.length - 4) ++ [s] := by
      rw [List.drop_append_eq_append_drop]
      have e1 : (L ++ [s]).length - 5 = L.length - 4 := by simp
      rw [e1]
      have e3 : L.length - 4 - L.length = 0 := by omega
      rw [e3]
      simp
    rw [hB]

theorem recordAll_window (inputs : List (ℚ × ℚ)) :
    ∀ (d : SpeedDetector) (L : List ℚ), d.samples = lastFive L →
      (recordAll d inputs).samples
        = lastFive (L ++ inputs.map (fun p => speedMbps p.1 p.2)) := by
  induction inputs with
  | nil => intro d L hd; simpa [recordAll] using hd
  | cons p rest ih =>
      intro d L hd
      have hstep : (recordChunkUpload d p.1 p.2).1.samples
          = lastFive (L ++ [speedMbps p.1 p.2]) := by
        simp only [recordChunkUpload, hd]
        exact window_step L (speedMbps p.1 p.2)
      have := ih (recordChunkUpload d p.1 p.2).1 (L ++ [speedMbps p.1 p.2]) hstep
      simpa [recordAll, List.append_assoc] using this

theorem enumFrom_weightedSum (l : List ℚ) :
    ∀ k : ℕ, ((List.enumFrom k l).map (fun p => p.2 * ((p.1 : ℚ) + 1))).sum
      = ∑ i in Finset.range l.length, l.getD i 0 * (((k + i : ℕ) : ℚ) + 1) := by
  induction l with
  | nil => intro k; simp
  | cons a l ih =>
      intro k
      rw [List.enumFrom_cons]
      simp only [List.map_cons, List.sum_cons, List.length_cons]
      rw [Finset.sum_range_succ']
      have h0 : (a :: l).getD 0 0 * (((k + 0 : ℕ) : ℚ) + 1) = a * ((k : ℚ) + 1) := by
        simp
      rw [h0, ih (k + 1)]
      have hterm : ∀ i : ℕ, (a :: l).getD (i + 1) 0 * (((k + (i + 1) : ℕ) : ℚ) + 1)
          = l.getD i 0 * (((k + 1 + i : ℕ) : ℚ) + 1) := by
        intro i
        have : k + (i + 1) = k + 1 + i := by omega
        simp [this]
      simp only [hterm]
      ring

theorem enumFrom_totalWeight (l : List ℚ) :
    ∀ k : ℕ, ((List.enumFrom k l).map (fun p => ((p.1 : ℚ) + 1))).sum
      = ∑ i in Finset.range l.length, (((k + i : ℕ) : ℚ) + 1) := by
  induction l with
  | nil => intro k; simp
  | cons a l ih =>
      intro k
      rw [List.enumFrom_cons]
      simp only [List.map_cons, List.sum_cons, List.length_cons]
      rw [Finset.sum_range_succ']
      rw [ih (k + 1)]
      have hterm : ∀ i : ℕ, (((k + (i + 1) : ℕ) : ℚ) + 1) = (((k + 1 + i : ℕ) : ℚ) + 1) := by
        intro i
        have : k + (i + 1) = k + 1 + i := by omega
        simp [this]
      simp only [hterm]
      push_cast
      ring

theorem calculateWeightedAverage_formula (l : List ℚ) :
    calculateWeightedAverage l
      = (∑ i in Finset.range l.length, l.getD i 0 * ((i : ℚ) + 1))
        / (∑ i in Finset.range l.length, ((i : ℚ) + 1)) := by
  unfold calculateWeightedAverage weightedSum totalWeight
  rcases Decidable.em (l.length = 0) with h0 | h0
  · rw [if_pos h0]
    rw [List.length_eq_zero] at h0
    subst h0
    simp
  · rw [if_neg h0]
    unfold List.enum
    rw [enumFrom_weightedSum l 0, enumFrom_totalWeight l 0]
    simp

/-- C7.  The detector retains at most the five most recent samples in
insertion order (oldest evicted first): after any run of recorded uploads
the retained list is exactly the last five of all computed speed samples;
`recordChunkUpload` returns the weighted average in which retained sample
`i` (0 = oldest retained) has weight `i+1`; and with zero recorded samples
`avgSpeed` is `null` and both concurrency advisories are `false`. -/
theorem detector_window_weighted_average_and_null_start :
    (∀ inputs : List (ℚ × ℚ),
        (recordAll initDetector inputs).samples
          = lastFive (inputs.map (fun p => speedMbps p.1 p.2))) ∧
    (∀ (d : SpeedDetector) (c t : ℚ),
        (recordChunkUpload d c t).2
          = (∑ i in Finset.range (recordChunkUpload d c t).1.samples.length,
              (recordChunkUpload d c t).1.samples.getD i 0 * ((i : ℚ) + 1))
            / (∑ i in Finset.range (recordChunkUpload d c t).1.samples.length,
              ((i : ℚ) + 1))) ∧
    initDetector.avgSpeed = none ∧
    shouldIncreaseConcurrency initDetector = false ∧
    shouldReduceConcurrency initDetector = false := by
  refine ⟨?_, ?_, rfl, rfl, rfl⟩
  · intro inputs
    have := recordAll_window inputs initDetector [] (by simp [initDetector, lastFive])
    simpa using this
  · intro d c t
    exact calculateWeightedAverage_formula _

/-! ## Upload queue priorities and dispatch order (C8) -/

/-- Method `calculateChunkPriority` from the manager: first chunk 100, last
chunk 90, middle chunks 50 (the `index === 0` test comes first). -/
def calculateChunkPriority (totalChunks i : ℕ) : ℕ :=
  if i = 0 then 100 else if i = totalChunks - 1 then 90 else 50

/-- One entry of `this.uploadQueue`: `{index, uploadId, retries,
maxRetries, priority}` (the session-constant `uploadId` string is
omitted). -/
structure Chunk where
  index : ℕ
  retries : ℕ
  maxRetries : ℕ
  priority : ℕ
deriving DecidableEq

/-- The queue entry pushed for index `i` in `upload()`:
`{index: i, retries: 0, maxRetries: 3, priority: calculateChunkPriority(i)}`. -/
def chunkOf (totalChunks i : ℕ) : Chunk :=
  ⟨i, 0, 3, calculateChunkPriority totalChunks i⟩

/-- The queue as built by the `for` loop in `upload()` before sorting. -/
def initialQueue (totalChunks : ℕ) : List Chunk :=
  (List.range totalChunks).map (chunkOf totalChunks)

/-- The sort comparator `(a, b) => b.priority - a.priority`: `a` precedes
`b` when `a.priority ≥ b.priority`.  JS `Array.prototype.sort` is
guaranteed stable; Mathlib's insertion sort realises exactly the stable
sort for this total preorder. -/
def queueLE (a b : Chunk) : Prop := b.priority ≤ a.priority

instance : DecidableRel queueLE := fun _ b => Nat.decLe b.priority _

/-- The sort `this.uploadQueue.sort((a, b) => b.priority - a.priority)` applied to
the freshly built queue. -/
def sortedQueue (totalChunks : ℕ) : List Chunk :=
  (initialQueue totalChunks).insertionSort queueLE

theorem orderedInsert_equal_block (c : Chunk) (hc : c.priority = 50) :
    ∀ l : List Chunk, (∀ x ∈ l, Chunk.priority x = 50) →
      l.orderedInsert queueLE c = c :: l := by
  intro l hl
  cases l with
  | nil => rfl
  | cons y ys =>
      rw [List.orderedInsert]
      rw [if_pos]
      unfold queueLE
      rw [hc, hl y (by simp)]

theorem insertionSort_mid_last (c90 : Chunk) (h90 : c90.priority = 90) :
    ∀ l : List Chunk, (∀ x ∈ l, Chunk.priority x = 50) →
      (l ++ [c90]).insertionSort queueLE = c90 :: l := by
  intro l
  induction l with
  | nil => intro _; rfl
  | cons a l ih =>
      intro hl
      have ha : a.priority = 50 := hl a (by simp)
      have hl' : ∀ x ∈ l, Chunk.priority x = 50 := fun x hx => hl x (by simp [hx])
      rw [List.cons_append, List.insertionSort, ih hl', List.orderedInsert]
      rw [if_neg]
      · rw [orderedInsert_equal_block a ha l hl']
      · unfold queueLE
        rw [ha, h90]
        omega

/-- C8.  After queue initialisation, index 0 has priority 100, the last
index has priority 90 and every other index has priority 50; the stable
descending-priority sort therefore dispatches index 0 first, then the
last index, then indices `1 .. totalChunks-2` in ascending order, for
every `totalChunks ≥ 3`. -/
theorem initial_dispatch_order (n : ℕ) (h : 3 ≤ n) :
    (sortedQueue n).map Chunk.index
        = 0 :: (n - 1) :: (List.range (n - 2)).map (fun i => i + 1) ∧
    calculateChunkPriority n 0 = 100 ∧
    calculateChunkPriority n (n - 1) = 90 ∧
    (∀ i, 0 < i → i < n - 1 → calculateChunkPriority n i = 50) := by
  obtain ⟨m, rfl⟩ : ∃ m, n = m + 3 := ⟨n - 3, by omega⟩
  have hpri_mid : ∀ i, 0 < i → i < m + 3 - 1 → calculateChunkPriority (m + 3) i = 50 := by
    intro i h1 h2
    unfold calculateChunkPriority
    rw [if_neg (by omega), if_neg (by omega)]
  refine ⟨?_, rfl, by unfold calculateChunkPriority; rw [if_neg (by omega), if_pos rfl], hpri_mid⟩
  have hrange : List.range (m + 3)
      = 0 :: (List.range (m + 1)).map Nat.succ ++ [m + 2] := by
    rw [List.range_succ, List.range_succ_eq_map]
  have hqueue : initialQueue (m + 3)
      = chunkOf (m + 3) 0
          :: ((List.range (m + 1)).map (fun i => chunkOf (m + 3) (i + 1)) ++ [chunkOf (m + 3) (m + 2)]) := by
    unfold initialQueue
    rw [hrange]
    simp [List.map_map, Function.comp, Nat.succ_eq_add_one]
  have hmid : ∀ x ∈ (List.range (m + 1)).map (fun i => chunkOf (m + 3) (i + 1)),
      Chunk.priority x = 50 := by
    intro x hx
    rw [List.mem_map] at hx
    obtain ⟨i, hi, rfl⟩ := hx
    rw [List.mem_range] at hi
    exact hpri_mid (i + 1) (by omega) (by omega)
  have h90 : (chunkOf (m + 3) (m + 2)).priority = 90 := by
    unfold chunkOf calculateChunkPriority
    rw [if_neg (by omega), if_pos (by omega)]
  unfold sortedQueue
  rw [hqueue, List.insertionSort,
    insertionSort_mid_last (chunkOf (m + 3) (m + 2)) h90 _ hmid,
    List.orderedInsert]
  rw [if_pos]
  · simp [chunkOf, List.map_map, Function.comp]
  · unfold queueLE
    rw [h90]
    show 90 ≤ (chunkOf (m + 3) 0).priority
    unfold chunkOf calculateChunkPriority
    norm_num

theorem initial_dispatch_order_witness :
    3 ≤ 5 ∧
    ((sortedQueue 5).map Chunk.index
        = 0 :: (5 - 1) :: (List.range (5 - 2)).map (fun i => i + 1) ∧
     calculateChunkPriority 5 0 = 100 ∧
     calculateChunkPriority 5 (5 - 1) = 90 ∧
     (∀ i, 0 < i → i < 5 - 1 → calculateChunkPriority 5 i = 50)) :=
  ⟨by norm_num, initial_dispatch_order 5 (by norm_num)⟩

/-! ## Upload orchestration result contract (C9)

Shallow embedding of `VideonestClient.uploadVideo` from
`src/core/client.ts`.  The environment records whether a thumbnail was
supplied and the outcome of each awaited step inside the `try` block; a
`thrown` outcome covers a rejected promise or a thrown `Error` with that
message.  `trackVideoUpload` wraps its own body in `try/catch` and never
throws, so it has no effect on the result and is omitted. -/

/-- Outcome of one awaited step: resolved value or thrown error message. -/
inductive StepOutcome (α : Type) where
  | ok (val : α)
  | thrown (msg : String)
deriving DecidableEq

/-- Parsed JSON body of the finalize response (`finalizeResult`):
`success`, optional `message`, and `video.id` on success. -/
structure FinalizeBody where
  success : Bool
  message : Option String
  videoId : ℕ
deriving DecidableEq

/-- Parsed JSON body of the thumbnail-upload response. -/
structure ThumbBody where
  success : Bool
  message : Option String
deriving DecidableEq

/-- The structured result `uploadVideo` resolves with (the fields of
`UploadResult` relevant to the contract). -/
structure UploadResult where
  success : Bool
  message : Option String
deriving DecidableEq

/-- One `uploadVideo` run's environment: `options.thumbnail` presence and
the outcome of the chunk-upload phase (`uploadManager.upload`), of the
finalize `fetch` + `json()`, and of the thumbnail upload. -/
structure UploadEnv where
  hasThumbnail : Bool
  chunksOutcome : StepOutcome (String × ℕ)
  finalizeOutcome : StepOutcome FinalizeBody
  thumbnailOutcome : StepOutcome ThumbBody
deriving DecidableEq

/-- Method `uploadThumbnail` of `VideonestClient`: a response body with
`success: false` throws `Error(result.message || 'Thumbnail upload
failed')`; a transport error is caught and rethrown with its message. -/
def uploadThumbnail (o : StepOutcome ThumbBody) : StepOutcome Unit :=
  match o with
  | .thrown m => .thrown m
  | .ok b =>
      if b.success then .ok ()
      else .thrown (b.message.getD ("Thumbnail upload failed"))

/-- Method `uploadVideo` of `VideonestClient`: the `try` block in program
order — missing thumbnail throws, the chunk phase may reject, the
finalize body is checked via `if (!finalizeResult.success) throw ...`,
the thumbnail upload may throw — and the `catch` returns
`{ success: false, message: error.message }`.  On full success the parsed
finalize body itself is returned. -/
def uploadVideo (env : UploadEnv) : UploadResult :=
  if env.hasThumbnail = false then
    { success := false, message := some ("Thumbnail is required for video upload") }
  else
    match env.chunksOutcome with
    | .thrown m => { success := false, message := some m }
    | .ok _ =>
        match env.finalizeOutcome with
        | .thrown m => { success := false, message := some m }
        | .ok body =>
            if body.success = false then
              { success := false,
                message := some (body.message.getD ("Upload finalization failed")) }
            else
              match uploadThumbnail env.thumbnailOutcome with
              | .thrown m => { success := false, message := some m }
              | .ok _ => { success := body.success, message := body.message }

/-- C9.  `uploadVideo` never lets a failure escape as an exception: every
failure path resolves with `success = false` and a message (missing
thumbnail, rejected chunk phase, rejected finalize); a finalize response
whose parsed body has `success: false` — including on an HTTP 200 — is a
failure; and the result is successful only if the finalize body reported
`success: true`. -/
theorem uploadVideo_failure_contract :
    (∀ env : UploadEnv, (uploadVideo env).success = false →
        ∃ m, (uploadVideo env).message = some m) ∧
    (∀ env : UploadEnv, env.hasThumbnail = false →
        uploadVideo env
          = { success := false,
              message := some ("Thumbnail is required for video upload") }) ∧
    (∀ (env : UploadEnv) (m : String), env.chunksOutcome = .thrown m →
        env.hasThumbnail = true →
        uploadVideo env = { success := false, message := some m }) ∧
    (∀ (env : UploadEnv) (u : String × ℕ) (m : String),
        env.hasThumbnail = true → env.chunksOutcome = .ok u →
        env.finalizeOutcome = .thrown m →
        uploadVideo env = { success := false, message := some m }) ∧
    (∀ (env : UploadEnv) (u : String × ℕ) (body : FinalizeBody),
        env.hasThumbnail = true → env.chunksOutcome = .ok u →
        env.finalizeOutcome = .ok body → body.success = false →
        uploadVideo env
          = { success := false,
              message := some (body.message.getD ("Upload finalization failed")) }) ∧
    (∀ env : UploadEnv, (uploadVideo env).success = true →
        ∃ body, env.finalizeOutcome = .ok body ∧ body.success = true) := by
  refine ⟨?_, ?_, ?_, ?_, ?_, ?_⟩
  · rintro ⟨ht, co, fo, tho⟩ hfail
    cases ht
    · exact ⟨("Thumbnail is required for video upload"), by simp [uploadVideo]⟩
    · cases co with
      | thrown m => exact ⟨m, by simp [uploadVideo]⟩
      | ok u =>
          cases fo with
          | thrown m => exact ⟨m, by simp [uploadVideo]⟩
          | ok b =>
              cases hbs : b.success
              · exact ⟨b.message.getD ("Upload finalization failed"), by simp [uploadVideo, hbs]⟩
              · cases hto : uploadThumbnail tho with
                | thrown m => exact ⟨m, by simp [uploadVideo, hbs, hto]⟩
                | ok uu =>
                    exfalso
                    simp [uploadVideo, hbs, hto] at hfail
  · rintro ⟨ht, co, fo, tho⟩ h0
    subst h0
    rfl
  · rintro ⟨ht, co, fo, tho⟩ m hm h1
    subst h1
    subst hm
    rfl
  · rintro ⟨ht, co, fo, tho⟩ u m h1 hco hfo
    subst h1
    subst hco
    subst hfo
    rfl
  · rintro ⟨ht, co, fo, tho⟩ u body h1 hco hfo hbs
    subst h1
    subst hco
    subst hfo
    simp [uploadVideo, hbs]
  · rintro ⟨ht, co, fo, tho⟩ hsucc
    cases ht
    · simp [uploadVideo] at hsucc
    · cases co with
      | thrown m => simp [uploadVideo] at hsucc
      | ok u =>
          cases fo with
          | thrown m => simp [uploadVideo] at hsucc
          | ok b =>
              cases hbs : b.success
              · simp [uploadVideo, hbs] at hsucc
              · exact ⟨b, rfl, hbs⟩

theorem uploadVideo_failure_contract_witness :
    uploadVideo
        ⟨false, StepOutcome.ok (("id"), 3),
          StepOutcome.ok ⟨true, none, 1⟩, StepOutcome.ok ⟨true, none⟩⟩
      = { success := false,
          message := some ("Thumbnail is required for video upload") } :=
  uploadVideo_failure_contract.2.1
    ⟨false, StepOutcome.ok (("id"), 3),
      StepOutcome.ok ⟨true, none, 1⟩, StepOutcome.ok ⟨true, none⟩⟩ rfl

/-! ## IEEE special-value model of the detector (C10)

The JS expression `(chunkSize * 8) / (uploadTime / 1000) / 1_000_000`
divides by zero when `uploadTime` is 0.  `JsNum` models a JS `number` by
its IEEE class — NaN, the two infinities, or a finite value — with finite
arithmetic carried exactly in `ℚ` (rounding never changes the class on
the operations used here, which is all the claim is about). -/

inductive JsNum where
  | nan
  | posInf
  | negInf
  | fin (q : ℚ)
deriving DecidableEq

namespace JsNum

/-- IEEE addition on classes; finite values add exactly. -/
def add : JsNum → JsNum → JsNum
  | nan, _ => nan
  | _, nan => nan
  | posInf, negInf => nan
  | posInf, _ => posInf
  | negInf, posInf => nan
  | negInf, _ => negInf
  | fin _, posInf => posInf
  | fin _, negInf => negInf
  | fin a, fin b => fin (a + b)

/-- IEEE multiplication on classes; finite values multiply exactly. -/
def mul : JsNum → JsNum → JsNum
  | nan, _ => nan
  | _, nan => nan
  | posInf, posInf => posInf
  | posInf, negInf => negInf
  | negInf, posInf => negInf
  | negInf, negInf => posInf
  | posInf, fin b => if b = 0 then nan else if 0 < b then posInf else negInf
  | negInf, fin b => if b = 0 then nan else if 0 < b then negInf else posInf
  | fin a, posInf => if a = 0 then nan else if 0 < a then posInf else negInf
  | fin a, negInf => if a = 0 then nan else if 0 < a then negInf else posInf
  | fin a, fin b => fin (a * b)

/-- IEEE division on classes: a positive finite value divided by (+)0
is `+Infinity`, `0 / 0` is NaN, infinity divided by a finite value stays
infinite; finite values divide exactly. -/
def div : JsNum → JsNum → JsNum
  | nan, _ => nan
  | _, nan => nan
  | posInf, posInf => nan
  | posInf, negInf => nan
  | negInf, posInf => nan
  | negInf, negInf => nan
  | posInf, fin b => if 0 ≤ b then posInf else negInf
  | negInf, fin b => if 0 ≤ b then negInf else posInf
  | fin _, posInf => fin 0
  | fin _, negInf => fin 0
  | fin a, fin b =>
      if b = 0 then (if a = 0 then nan else if 0 < a then posInf else negInf)
      else fin (a / b)

end JsNum

/-- The sample expression of `recordChunkUpload` with JS semantics:
`(chunkSize * 8) / (uploadTime / 1000) / 1_000_000`. -/
def jsSpeedMbps (chunkSize uploadTime : JsNum) : JsNum :=
  ((chunkSize.mul (JsNum.fin 8)).div (uploadTime.div (JsNum.fin 1000))).div
    (JsNum.fin 1000000)

structure JsSpeedDetector where
  samples : List JsNum
  avgSpeed : Option JsNum
  globalThroughput : JsNum
deriving DecidableEq

def jsInitDetector : JsSpeedDetector := ⟨[], none, JsNum.fin 0⟩

/-- The `forEach` accumulation `weightedSum += speed * (index + 1)` with
JS arithmetic. -/
def jsWeightedSum (samples : List JsNum) : JsNum :=
  ((samples.enum).map (fun p => p.2.mul (JsNum.fin ((p.1 : ℚ) + 1)))).foldl
    JsNum.add (JsNum.fin 0)

/-- The `forEach` accumulation `totalWeight += index + 1` with JS
arithmetic. -/
def jsTotalWeight (samples : List JsNum) : JsNum :=
  ((samples.enum).map (fun p => JsNum.fin ((p.1 : ℚ) + 1))).foldl
    JsNum.add (JsNum.fin 0)

/-- Method `calculateWeightedAverage` with JS arithmetic. -/
def jsWeightedAverage (samples : List JsNum) : JsNum :=
  if samples.length = 0 then JsNum.fin 0
  else (jsWeightedSum samples).div (jsTotalWeight samples)

/-- Method `recordChunkUpload` with JS arithmetic (the division by
`uploadTime` is unguarded, exactly as in the source). -/
def jsRecordChunkUpload (d : JsSpeedDetector) (chunkSize uploadTime : JsNum) :
    JsSpeedDetector × JsNum :=
  let s := jsSpeedMbps chunkSize uploadTime
  let pushed := d.samples ++ [s]
  let samples1 := if 5 < pushed.length then pushed.tail else pushed
  let avg := jsWeightedAverage samples1
  (⟨samples1, some avg, samples1.foldl JsNum.add (JsNum.fin 0)⟩, avg)

/-- Folding a run of finite-valued recorded uploads through the detector. -/
def jsRecordAll (d : JsSpeedDetector) (inputs : List (ℚ × ℚ)) : JsSpeedDetector :=
  inputs.foldl (fun d p => (jsRecordChunkUpload d (JsNum.fin p.1) (JsNum.fin p.2)).1) d

theorem jsSpeedMbps_fin (a t : ℚ) (ht : t ≠ 0) :
    ∃ q, jsSpeedMbps (JsNum.fin a) (JsNum.fin t) = JsNum.fin q := by
  refine ⟨a * 8 / (t / 1000) / 1000000, ?_⟩
  have h1 : (1000 : ℚ) ≠ 0 := by norm_num
  have h2 : t / 1000 ≠ 0 := div_ne_zero ht h1
  simp [jsSpeedMbps, JsNum.mul, JsNum.div, h1, h2]

theorem jsSpeedMbps_zero_time (c : ℚ) (hc : 0 < c) :
    jsSpeedMbps (JsNum.fin c) (JsNum.fin 0) = JsNum.posInf := by
  have h8 : c * 8 ≠ 0 := by positivity
  have h8' : 0 < c * 8 := by positivity
  simp [jsSpeedMbps, JsNum.mul, JsNum.div, h8, h8']

theorem foldl_add_posInf_fins :
    ∀ (r : List JsNum) (k : ℕ),
      (∀ x ∈ r, ∃ q, x = JsNum.fin q) →
      ((List.enumFrom k r).map (fun p => p.2.mul (JsNum.fin ((p.1 : ℚ) + 1)))).foldl
          JsNum.add JsNum.posInf = JsNum.posInf := by
  intro r
  induction r with
  | nil => intro k _; rfl
  | cons y r ih =>
      intro k hy
      obtain ⟨q, rfl⟩ := hy y (by simp)
      rw [List.enumFrom_cons]
      simp only [List.map_cons, List.foldl_cons]
      have : JsNum.add JsNum.posInf ((JsNum.fin q).mul (JsNum.fin ((k : ℚ) + 1)))
          = JsNum.posInf := by
        simp [JsNum.add, JsNum.mul]
      rw [this]
      exact ih (k + 1) (fun x hx => hy x (by simp [hx]))

theorem jsWeightedSum_with_posInf :
    ∀ (l : List JsNum) (k : ℕ) (qa : ℚ) (r : List JsNum),
      (∀ x ∈ l, ∃ q, x = JsNum.fin q) →
      (∀ x ∈ r, ∃ q, x = JsNum.fin q) →
      ((List.enumFrom k (l ++ JsNum.posInf :: r)).map
          (fun p => p.2.mul (JsNum.fin ((p.1 : ℚ) + 1)))).foldl
        JsNum.add (JsNum.fin qa) = JsNum.posInf := by
  intro l
  induction l with
  | nil =>
      intro k qa r _ hr
      rw [List.nil_append, List.enumFrom_cons]
      simp only [List.map_cons, List.foldl_cons]
      have hk : ((k : ℚ) + 1) ≠ 0 := by positivity
      have hk' : (0 : ℚ) < (k : ℚ) + 1 := by positivity
      have : JsNum.add (JsNum.fin qa) (JsNum.posInf.mul (JsNum.fin ((k : ℚ) + 1)))
          = JsNum.posInf := by
        simp [JsNum.add, JsNum.mul, hk, hk']
      rw [this]
      exact foldl_add_posInf_fins r (k + 1) hr
  | cons y l ih =>
      intro k qa r hl hr
      obtain ⟨q, rfl⟩ := hl y (by simp)
      rw [List.cons_append, List.enumFrom_cons]
      simp only [List.map_cons, List.foldl_cons]
      have : JsNum.add (JsNum.fin qa) ((JsNum.fin q).mul (JsNum.fin ((k : ℚ) + 1)))
          = JsNum.fin (qa + q * ((k : ℚ) + 1)) := by
        simp [JsNum.add, JsNum.mul]
      rw [this]
      exact ih (k + 1) _ r (fun x hx => hl x (by simp [hx])) hr

theorem jsTotalWeight_fin :
    ∀ (s : List JsNum) (k : ℕ) (qa : ℚ), 0 ≤ qa →
      ∃ w, 0 ≤ w ∧
        ((List.enumFrom k s).map (fun p => JsNum.fin ((p.1 : ℚ) + 1))).foldl
          JsNum.add (JsNum.fin qa) = JsNum.fin w := by
  intro s
  induction s with
  | nil => intro k qa hqa; exact ⟨qa, hqa, rfl⟩
  | cons y s ih =>
      intro k qa hqa
      rw [List.enumFrom_cons]
      simp only [List.map_cons, List.foldl_cons]
      have : JsNum.add (JsNum.fin qa) (JsNum.fin ((k : ℚ) + 1))
          = JsNum.fin (qa + ((k : ℚ) + 1)) := by
        simp [JsNum.add]
      rw [this]
      exact ih (k + 1) _ (by positivity)

theorem jsWeightedAverage_with_posInf (l r : List JsNum)
    (hl : ∀ x ∈ l, ∃ q, x = JsNum.fin q) (hr : ∀ x ∈ r, ∃ q, x = JsNum.fin q) :
    jsWeightedAverage (l ++ JsNum.posInf :: r) = JsNum.posInf := by
  unfold jsWeightedAverage
  rw [if_neg (by simp)]
  unfold jsWeightedSum jsTotalWeight List.enum
  rw [jsWeightedSum_with_posInf l 0 0 r hl hr]
  obtain ⟨w, hw, hwe⟩ := jsTotalWeight_fin (l ++ JsNum.posInf :: r) 0 0 le_rfl
  rw [hwe]
  simp [JsNum.div, hw]

theorem posInf_survives (rest : List (ℚ × ℚ)) :
    ∀ (d : JsSpeedDetector) (l r : List JsNum),
      d.samples = l ++ JsNum.posInf :: r →
      (∀ x ∈ l, ∃ q, x = JsNum.fin q) →
      (∀ x ∈ r, ∃ q, x = JsNum.fin q) →
      r.length + rest.length ≤ 4 →
      (∀ p ∈ rest, p.2 ≠ 0) →
      d.avgSpeed = some JsNum.posInf →
      (jsRecordAll d rest).avgSpeed = some JsNum.posInf := by
  induction rest with
  | nil => intro d l r _ _ _ _ _ havg; simpa [jsRecordAll] using havg
  | cons p rest ih =>
      intro d l r hs hl hr hlen hne havg
      obtain ⟨q, hq⟩ := jsSpeedMbps_fin p.1 p.2 (hne p (by simp))
      have hr' : ∀ x ∈ r ++ [jsSpeedMbps (JsNum.fin p.1) (JsNum.fin p.2)],
          ∃ q', x = JsNum.fin q' := by
        intro x hx
        rcases List.mem_append.mp hx with hx | hx
        · exact hr x hx
        · simp at hx
          exact ⟨q, by rw [hx, hq]⟩
      have hpushed : d.samples ++ [jsSpeedMbps (JsNum.fin p.1) (JsNum.fin p.2)]
          = l ++ JsNum.posInf :: (r ++ [jsSpeedMbps (JsNum.fin p.1) (JsNum.fin p.2)]) := by
        rw [hs]
        simp
      set s := jsSpeedMbps (JsNum.fin p.1) (JsNum.fin p.2) with hsdef
      have hall : jsRecordAll d (p :: rest)
          = jsRecordAll (jsRecordChunkUpload d (JsNum.fin p.1) (JsNum.fin p.2)).1 rest := by
        simp [jsRecordAll]
      rw [hall]
      rcases le_or_lt (d.samples ++ [s]).length 5 with h5 | h5
      · have hsam : (jsRecordChunkUpload d (JsNum.fin p.1) (JsNum.fin p.2)).1.samples
            = l ++ JsNum.posInf :: (r ++ [s]) := by
          simp only [jsRecordChunkUpload]
          rw [← hsdef]
          rw [if_neg (by omega)]
          exact hpushed
        have havg' : (jsRecordChunkUpload d (JsNum.fin p.1) (JsNum.fin p.2)).1.avgSpeed
            = some JsNum.posInf := by
          simp only [jsRecordChunkUpload]
          rw [← hsdef]
          rw [if_neg (by omega), hpushed]
          rw [jsWeightedAverage_with_posInf l (r ++ [s]) hl hr']
        refine ih _ l (r ++ [s]) hsam hl hr' ?_ (fun x hx => hne x (by simp [hx])) havg'
        simp at hlen ⊢
        omega
      · have hlpos : l ≠ [] := by
          intro hcon
          subst hcon
          rw [hpushed] at h5
          simp at h5 hlen
          omega
        obtain ⟨a, l', rfl⟩ := List.exists_cons_of_ne_nil hlpos
        have htail : (d.samples ++ [s]).tail = l' ++ JsNum.posInf :: (r ++ [s]) := by
          rw [hpushed]
          rfl
        have hl' : ∀ x ∈ l', ∃ q', x = JsNum.fin q' := fun x hx => hl x (by simp [hx])
        have hsam : (jsRecordChunkUpload d (JsNum.fin p.1) (JsNum.fin p.2)).1.samples
            = l' ++ JsNum.posInf :: (r ++ [s]) := by
          simp only [jsRecordChunkUpload]
          rw [← hsdef]
          rw [if_pos (by omega)]
          exact htail
        have havg' : (jsRecordChunkUpload d (JsNum.fin p.1) (JsNum.fin p.2)).1.avgSpeed
            = some JsNum.posInf := by
          simp only [jsRecordChunkUpload]
          rw [← hsdef]
          rw [if_pos (by omega), htail]
          rw [jsWeightedAverage_with_posInf l' (r ++ [s]) hl' hr']
        refine ih _ l' (r ++ [s]) hsam hl' hr' ?_ (fun x hx => hne x (by simp [hx])) havg'
        simp at hlen ⊢
        omega

/-- C10.  `recordChunkUpload` is total: with `uploadTime = 0` (and a
non-empty chunk, as guaranteed by the empty-chunk guard) it does not
throw; instead the computed speed sample is `Infinity`, the returned
average and the published `avgSpeed` are `Infinity`, and they remain
`Infinity` under up to four further recordings with non-zero elapsed
times — as long as the zero-elapsed sample stays inside the five-sample
window. -/
theorem zero_elapsed_sample_infinite_estimate (d : JsSpeedDetector) (c : ℚ)
    (hc : 0 < c) (hfin : ∀ x ∈ d.samples, ∃ q, x = JsNum.fin q) :
    jsSpeedMbps (JsNum.fin c) (JsNum.fin 0) = JsNum.posInf ∧
    (jsRecordChunkUpload d (JsNum.fin c) (JsNum.fin 0)).2 = JsNum.posInf ∧
    (jsRecordChunkUpload d (JsNum.fin c) (JsNum.fin 0)).1.avgSpeed
      = some JsNum.posInf ∧
    (∀ rest : List (ℚ × ℚ), rest.length ≤ 4 → (∀ p ∈ rest, p.2 ≠ 0) →
      (jsRecordAll (jsRecordChunkUpload d (JsNum.fin c) (JsNum.fin 0)).1 rest).avgSpeed
        = some JsNum.posInf) := by
  have hz := jsSpeedMbps_zero_time c hc
  have hpushed : d.samples ++ [jsSpeedMbps (JsNum.fin c) (JsNum.fin 0)]
      = d.samples ++ JsNum.posInf :: [] := by
    rw [hz]
  have hdecomp : ∃ l, (∀ x ∈ l, ∃ q, x = JsNum.fin q) ∧
      (jsRecordChunkUpload d (JsNum.fin c) (JsNum.fin 0)).1.samples
        = l ++ JsNum.posInf :: [] := by
    rcases le_or_lt (d.samples ++ [jsSpeedMbps (JsNum.fin c) (JsNum.fin 0)]).length 5
      with h5 | h5
    · refine ⟨d.samples, hfin, ?_⟩
      simp only [jsRecordChunkUpload]
      rw [if_neg (by omega)]
      exact hpushed
    · have hne : d.samples ≠ [] := by
        intro hcon
        rw [hcon] at h5
        simp at h5
      obtain ⟨a, l', hdl⟩ := List.exists_cons_of_ne_nil hne
      refine ⟨l', fun x hx => hfin x (by simp [hdl, hx]), ?_⟩
      simp only [jsRecordChunkUpload]
      rw [if_pos (by omega), hpushed, hdl]
      rfl
  obtain ⟨l, hlfin, hldec⟩ := hdecomp
  have havg : (jsRecordChunkUpload d (JsNum.fin c) (JsNum.fin 0)).1.avgSpeed
      = some JsNum.posInf := by
    have hsm : (jsRecordChunkUpload d (JsNum.fin c) (JsNum.fin 0)).1.avgSpeed
        = some (jsWeightedAverage
            (jsRecordChunkUpload d (JsNum.fin c) (JsNum.fin 0)).1.samples) := by
      simp [jsRecordChunkUpload, jsWeightedAverage]
    rw [hsm, hldec, jsWeightedAverage_with_posInf l [] hlfin (by simp)]
  refine ⟨hz, ?_, havg, ?_⟩
  · have hsm : (jsRecordChunkUpload d (JsNum.fin c) (JsNum.fin 0)).2
        = jsWeightedAverage
            (jsRecordChunkUpload d (JsNum.fin c) (JsNum.fin 0)).1.samples := by
      simp [jsRecordChunkUpload]
    rw [hsm, hldec, jsWeightedAverage_with_posInf l [] hlfin (by simp)]
  · intro rest hrest hne
    exact posInf_survives rest _ l [] hldec hlfin (by simp) (by simp; omega) hne havg

theorem zero_elapsed_sample_infinite_estimate_witness :
    (0 : ℚ) < 8388608 ∧
    (jsSpeedMbps (JsNum.fin 8388608) (JsNum.fin 0) = JsNum.posInf ∧
     (jsRecordChunkUpload jsInitDetector (JsNum.fin 8388608) (JsNum.fin 0)).2
        = JsNum.posInf ∧
     (jsRecordChunkUpload jsInitDetector (JsNum.fin 8388608) (JsNum.fin 0)).1.avgSpeed
        = some JsNum.posInf ∧
     (∀ rest : List (ℚ × ℚ), rest.length ≤ 4 → (∀ p ∈ rest, p.2 ≠ 0) →
       (jsRecordAll
           (jsRecordChunkUpload jsInitDetector (JsNum.fin 8388608) (JsNum.fin 0)).1
           rest).avgSpeed
         = some JsNum.posInf)) :=
  ⟨by norm_num,
   zero_elapsed_sample_infinite_estimate jsInitDetector 8388608 (by norm_num)
     (by intro x hx; simp [jsInitDetector] at hx)⟩

/-! ## Scheduler state machine (C4, C5, C6)

One upload session of `UploadOptimizationManager`, as a transition system
over the manager's mutable fields.  Each transition is one synchronous
block of the source (no `await` inside): worker dispatch
(`shift` + `activeUploads.set`), an XHR outcome handler, a fired backoff
timer (`setTimeout` callback unshifting the retried chunk), and one sweep
of `checkForStalledUploads`.  The `adaptive` flag selects between the
fixed-concurrency variant (`CONCURRENCY = 6`, no `adjustConcurrency`) and
the adaptive variant (`currentConcurrency` starting at 4, max 10) of
`uploadOptimizationManager.ts`.  The clock advances nondeterministically;
XHR outcomes are environment choices. -/

/-- One in-flight XHR: the worker's `chunkInfo` object as it was at
dispatch, and the `startTime` captured at the top of `uploadChunk`. -/
structure Attempt where
  chunk : Chunk
  startTime : ℕ
deriving DecidableEq

/-- JS `Map.set` on an insertion-ordered association list: update in
place when the key is present, else append at the end. -/
def mapSet (m : List (ℕ × Attempt)) (k : ℕ) (v : Attempt) : List (ℕ × Attempt) :=
  match m with
  | [] => [(k, v)]
  | (k', v') :: rest => if k' = k then (k, v) :: rest else (k', v') :: mapSet rest k v

/-- JS `Map.delete`: remove the entry with the given key, preserving the
order of the others. -/
def mapDelete (m : List (ℕ × Attempt)) (k : ℕ) : List (ℕ × Attempt) :=
  m.filter (fun p => p.1 != k)

/-- The mutable fields of one `UploadOptimizationManager` session, plus
the in-flight XHR attempts and a clock.  `timers` holds the pending
backoff `setTimeout` callbacks as (chunk to unshift, fire deadline). -/
structure MgrState where
  queue : List Chunk
  timers : List (Chunk × ℕ)
  active : List (ℕ × Attempt)
  inflight : List Attempt
  completed : Finset ℕ
  failed : Finset ℕ
  stalled : Finset ℕ
  detector : SpeedDetector
  currentConcurrency : ℕ
  maxConcurrency : ℕ
  clock : ℕ
deriving DecidableEq

/-- The session state after `upload()` built and sorted the queue, before
any worker ran. -/
def initState (adaptive : Bool) (fileSize : ℕ) : MgrState :=
  { queue := sortedQueue (totalChunksOf fileSize)
    timers := []
    active := []
    inflight := []
    completed := ∅
    failed := ∅
    stalled := ∅
    detector := initDetector
    currentConcurrency := if adaptive then 4 else 6
    maxConcurrency := if adaptive then 10 else 6
    clock := 0 }

/-- Method `handleChunkError`: below the retry budget the worker's
`chunkInfo.retries` is incremented and a `setTimeout` is scheduled that
will unshift the chunk onto the queue after
`Math.pow(2, chunkInfo.retries) * 1000` ms (the exponent reads the
already-incremented counter); the `activeUploads` entry is NOT deleted on
this path.  At the budget, the index joins `failedChunks` and its
`activeUploads` entry is deleted. -/
def handleChunkError (st : MgrState) (c : Chunk) : MgrState :=
  if c.retries < c.maxRetries then
    { st with timers := st.timers ++ [({ c with retries := c.retries + 1 },
        st.clock + 2 ^ (c.retries + 1) * 1000)] }
  else
    { st with failed := insert c.index st.failed,
              active := mapDelete st.active c.index }

/-- Method `adjustConcurrency` of the adaptive variant, as a function of
the (already updated) detector, the speed returned by
`recordChunkUpload`, and the current and maximum concurrency. -/
def adjustConcurrency (d : SpeedDetector) (currentSpeed : ℚ) (K maxK : ℕ) : ℕ :=
  if shouldReduceConcurrency d = true then max 1 (K - 1)
  else if shouldIncreaseConcurrency d = true ∧ K < maxK then
    if 50 < currentSpeed then min (K + 2) maxK
    else if 25 < currentSpeed then min (K + 1) maxK
    else K
  else K

def applyTick (st : MgrState) (t : ℕ) : MgrState := { st with clock := st.clock + t }

/-- Worker dispatch: `uploadQueue.shift()` followed synchronously (no
intervening `await`) by `activeUploads.set(index, {...chunkInfo,
startTime: Date.now()})` at the top of `uploadChunk`, and the XHR is
sent. -/
def applyDispatch (st : MgrState) (c : Chunk) : MgrState :=
  { st with queue := st.queue.tail,
            active := mapSet st.active c.index ⟨c, st.clock⟩,
            inflight := st.inflight ++ [⟨c, st.clock⟩] }

/-- The `xhr.onload` success block: `recordChunkUpload`,
`activeUploads.delete(index)`, `completedChunks.add(index)`, and — in the
adaptive variant only, when `completedChunks.size % 3 === 0` — a call to
`adjustConcurrency` with the speed just returned. -/
def applySuccess (adaptive : Bool) (fileSize : ℕ) (st : MgrState) (a : Attempt) :
    MgrState :=
  let dr := recordChunkUpload st.detector (chunkByteSize fileSize a.chunk.index : ℚ)
      (((st.clock - a.startTime : ℕ) : ℚ))
  let completed1 := insert a.chunk.index st.completed
  let k1 := if adaptive = true ∧ completed1.card % 3 = 0 then
      adjustConcurrency dr.1 dr.2 st.currentConcurrency st.maxConcurrency
    else st.currentConcurrency
  { st with inflight := st.inflight.erase a,
            active := mapDelete st.active a.chunk.index,
            completed := completed1,
            detector := dr.1,
            currentConcurrency := k1 }

/-- Any failed XHR outcome (network error, timeout, non-2xx status,
`success: false` body, unparsable body): the promise rejects and the
worker's `catch` runs `handleChunkError` on its `chunkInfo`. -/
def applyFail (st : MgrState) (a : Attempt) : MgrState :=
  handleChunkError { st with inflight := st.inflight.erase a } a.chunk

/-- A backoff `setTimeout` firing: `this.uploadQueue.unshift(chunkInfo)`
puts the retried chunk at the FRONT of the queue. -/
def applyTimerFire (st : MgrState) (c : Chunk) (deadline : ℕ) : MgrState :=
  { st with timers := st.timers.erase (c, deadline), queue := c :: st.queue }

/-- The stall test `now - uploadInfo.startTime > stallThreshold` with
`stallThreshold = 30000`. -/
def isStale (clock : ℕ) (p : ℕ × Attempt) : Bool := decide (p.2.startTime + 30000 < clock)

/-- Method `checkForStalledUploads`: every `activeUploads` entry older
than 30 s is added to `stalledChunks`, deleted from `activeUploads`, and
a copy with `retries + 1` is unshifted onto the queue (in map iteration
order, so the last entry processed ends up frontmost); the actual XHR is
not cancelled. -/
def applyStallSweep (st : MgrState) : MgrState :=
  let stale := st.active.filter (isStale st.clock)
  { st with active := st.active.filter (fun p => !(isStale st.clock p)),
            queue := stale.foldl
              (fun q p => { p.2.chunk with retries := p.2.chunk.retries + 1 } :: q)
              st.queue,
            stalled := st.stalled ∪ (stale.map (fun p => p.1)).toFinset }

/-- One observable transition of the session.  Dispatch is guarded by the
worker's check `uploadQueue.length > 0 && activeUploads.size <
currentConcurrency`; an empty slice (only possible for an index at or
past `totalChunks`) throws before `activeUploads.set` and goes straight
to `handleChunkError`. -/
inductive Step (adaptive : Bool) (fileSize : ℕ) : MgrState → MgrState → Prop where
  | tick (st : MgrState) (t : ℕ) : Step adaptive fileSize st (applyTick st t)
  | dispatch (st : MgrState) (c : Chunk) (hq : st.queue.head? = some c)
      (hK : st.active.length < st.currentConcurrency)
      (hsz : chunkByteSize fileSize c.index ≠ 0) :
      Step adaptive fileSize st (applyDispatch st c)
  | dispatchEmpty (st : MgrState) (c : Chunk) (hq : st.queue.head? = some c)
      (hK : st.active.length < st.currentConcurrency)
      (hsz : chunkByteSize fileSize c.index = 0) :
      Step adaptive fileSize st (handleChunkError { st with queue := st.queue.tail } c)
  | succeed (st : MgrState) (a : Attempt) (ha : a ∈ st.inflight) :
      Step adaptive fileSize st (applySuccess adaptive fileSize st a)
  | fail (st : MgrState) (a : Attempt) (ha : a ∈ st.inflight) :
      Step adaptive fileSize st (applyFail st a)
  | timerFire (st : MgrState) (c : Chunk) (deadline : ℕ)
      (hmem : (c, deadline) ∈ st.timers) (hd : deadline ≤ st.clock) :
      Step adaptive fileSize st (applyTimerFire st c deadline)
  | stallSweep (st : MgrState) :
      Step adaptive fileSize st (applyStallSweep st)

/-- States reachable from session start. -/
inductive Reachable (adaptive : Bool) (fileSize : ℕ) : MgrState → Prop where
  | init : Reachable adaptive fileSize (initState adaptive fileSize)
  | step {s t : MgrState} : Reachable adaptive fileSize s →
      Step adaptive fileSize s t → Reachable adaptive fileSize t

theorem mapSet_key_mem (m : List (ℕ × Attempt)) (k : ℕ) (v : Attempt) :
    k ∈ (mapSet m k v).map Prod.fst := by
  induction m with
  | nil => simp [mapSet]
  | cons p rest ih =>
      obtain ⟨k', v'⟩ := p
      by_cases hk : k' = k
      · simp [mapSet, hk]
      · simpa [mapSet, hk] using Or.inr ih

theorem mapSet_key_superset (k : ℕ) (v : Attempt) :
    ∀ (m : List (ℕ × Attempt)) (j : ℕ),
      j ∈ m.map Prod.fst → j ∈ (mapSet m k v).map Prod.fst := by
  intro m
  induction m with
  | nil => intro j hj; simp at hj
  | cons p rest ih =>
      intro j hj
      obtain ⟨k', v'⟩ := p
      rcases (by simpa using hj : j = k' ∨ j ∈ rest.map Prod.fst) with rfl | hj2
      · by_cases hk : j = k
        · simp [mapSet, hk]
        · simp [mapSet, hk]
      · by_cases hk : k' = k
        · simpa [mapSet, hk] using Or.inr hj2
        · simpa [mapSet, hk] using Or.inr (by simpa using ih j hj2)

theorem mapDelete_key_mem (m : List (ℕ × Attempt)) (k j : ℕ)
    (hj : j ∈ m.map Prod.fst) (hne : j ≠ k) :
    j ∈ (mapDelete m k).map Prod.fst := by
  unfold mapDelete
  rw [List.mem_map] at hj ⊢
  obtain ⟨p, hp, rfl⟩ := hj
  exact ⟨p, List.mem_filter.mpr ⟨hp, by simpa using hne⟩, rfl⟩

theorem mapDelete_sub (m : List (ℕ × Attempt)) (k : ℕ) :
    ∀ p ∈ mapDelete m k, p ∈ m := by
  intro p hp
  exact (List.mem_filter.mp hp).1

theorem mapSet_consistent (k : ℕ) (v : Attempt) (hv : v.chunk.index = k) :
    ∀ (m : List (ℕ × Attempt)), (∀ p ∈ m, p.2.chunk.index = p.1) →
      ∀ p ∈ mapSet m k v, p.2.chunk.index = p.1 := by
  intro m
  induction m with
  | nil =>
      intro _ p hp
      simp [mapSet] at hp
      subst hp
      exact hv
  | cons q rest ih =>
      intro hm p hp
      obtain ⟨k', v'⟩ := q
      by_cases hk : k' = k
      · simp only [mapSet, if_pos hk] at hp
        rcases List.mem_cons.mp hp with rfl | hp2
        · exact hv
        · exact hm _ (by simp [hp2])
      · simp only [mapSet, if_neg hk] at hp
        rcases List.mem_cons.mp hp with rfl | hp2
        · exact hm _ (by simp)
        · exact ih (fun q hq => hm q (by simp [hq])) p hp2

theorem handleChunkError_active_sub (st : MgrState) (c : Chunk) :
    ∀ p ∈ (handleChunkError st c).active, p ∈ st.active := by
  unfold handleChunkError
  split
  · intro p hp; exact hp
  · intro p hp; exact mapDelete_sub _ _ p hp

theorem active_keys_consistent (adaptive : Bool) (fileSize : ℕ) (st : MgrState)
    (h : Reachable adaptive fileSize st) :
    ∀ p ∈ st.active, p.2.chunk.index = p.1 := by
  induction h with
  | init => intro p hp; simp [initState] at hp
  | step hr hs ih =>
      cases hs with
      | tick t => exact ih
      | dispatch c hq hK hsz =>
          exact mapSet_consistent c.index ⟨c, _⟩ rfl _ ih
      | dispatchEmpty c hq hK hsz =>
          intro p hp
          have h2 := handleChunkError_active_sub _ c p hp
          exact ih p h2
      | succeed a ha =>
          intro p hp
          exact ih p (mapDelete_sub _ _ p hp)
      | fail a ha =>
          intro p hp
          have h2 := handleChunkError_active_sub _ a.chunk p hp
          exact ih p h2
      | timerFire c deadline hmem hd => exact ih
      | stallSweep =>
          intro p hp
          exact ih p (List.mem_filter.mp hp).1

theorem mem_foldl_cons_init {α β : Type} (f : α → β) :
    ∀ (l : List α) (q : List β) (x : β), x ∈ q →
      x ∈ l.foldl (fun q a => f a :: q) q := by
  intro l
  induction l with
  | nil => intro q x hx; simpa using hx
  | cons a l ih => intro q x hx; exact ih _ _ (by simp [hx])

theorem mem_foldl_cons_elem {α β : Type} (f : α → β) :
    ∀ (l : List α) (q : List β) (a : α), a ∈ l →
      f a ∈ l.foldl (fun q a => f a :: q) q := by
  intro l
  induction l with
  | nil => intro q a ha; simp at ha
  | cons b l ih =>
      intro q a ha
      rcases List.mem_cons.mp ha with rfl | ha
      · exact mem_foldl_cons_init f l _ _ (by simp)
      · exact ih _ _ ha

theorem chunkByteSize_zero_out_of_range (fileSize j : ℕ)
    (h : chunkByteSize fileSize j = 0) : ¬ j < totalChunksOf fileSize :=
  fun hj => (chunkByteSize_pos fileSize j hj).ne' h

/-- Membership of a part index in one of the four C4 state containers:
Pending (queue), InFlight (active map), Completed, Failed. -/
def coveredIn (st : MgrState) (i : ℕ) : Prop :=
  i ∈ st.queue.map Chunk.index ∨ i ∈ st.active.map Prod.fst ∨
    i ∈ st.completed ∨ i ∈ st.failed

theorem handleChunkError_covered (st : MgrState) (c : Chunk) (i : ℕ)
    (h : coveredIn st i) : coveredIn (handleChunkError st c) i := by
  unfold coveredIn at h ⊢
  unfold handleChunkError
  split
  · exact h
  · rcases h with hq | ha | hc | hf
    · exact Or.inl hq
    · by_cases hik : i = c.index
      · exact Or.inr (Or.inr (Or.inr (by simp [hik])))
      · exact Or.inr (Or.inl (mapDelete_key_mem _ _ _ ha hik))
    · exact Or.inr (Or.inr (Or.inl hc))
    · exact Or.inr (Or.inr (Or.inr (Finset.mem_insert.mpr (Or.inr hf))))

theorem queue_head_decomp (st : MgrState) (c : Chunk)
    (hq : st.queue.head? = some c) : st.queue = c :: st.queue.tail := by
  cases hql : st.queue with
  | nil => rw [hql] at hq; simp at hq
  | cons a t =>
      rw [hql] at hq
      simp at hq
      subst hq
      rfl

/-- C4 amended.  At every reachable state of either variant, every part
index `0 .. totalChunks-1` lies in AT LEAST one of the four containers —
Pending (uploadQueue), InFlight (activeUploads), Completed
(completedChunks), Failed (failedChunks) — including after retryable
transfer errors and stall reclaims.  (The containers are NOT pairwise
disjoint: see the counterexample, where a retried part is in the queue
while its stale `activeUploads` entry persists.) -/
theorem part_states_cover (adaptive : Bool) (fileSize : ℕ) (st : MgrState)
    (h : Reachable adaptive fileSize st) (i : ℕ) (hi : i < totalChunksOf fileSize) :
    i ∈ st.queue.map Chunk.index ∨ i ∈ st.active.map Prod.fst ∨
      i ∈ st.completed ∨ i ∈ st.failed := by
  induction h with
  | init =>
      left
      have hperm := List.perm_insertionSort queueLE (initialQueue (totalChunksOf fileSize))
      have hmem : i ∈ (initialQueue (totalChunksOf fileSize)).map Chunk.index := by
        unfold initialQueue
        rw [List.map_map]
        simpa [chunkOf, Function.comp] using List.mem_range.mpr hi
      exact ((hperm.map Chunk.index).mem_iff).mpr hmem
  | step hr hs ih =>
      cases hs with
      | tick t => exact ih
      | dispatch c hq hK hsz =>
          rcases ih with hq2 | ha | hc | hf
          · rw [queue_head_decomp _ c hq, List.map_cons, List.mem_cons] at hq2
            rcases hq2 with rfl | ht
            · exact Or.inr (Or.inl (mapSet_key_mem _ _ _))
            · exact Or.inl ht
          · exact Or.inr (Or.inl (mapSet_key_superset _ _ _ _ ha))
          · exact Or.inr (Or.inr (Or.inl hc))
          · exact Or.inr (Or.inr (Or.inr hf))
      | dispatchEmpty c hq hK hsz =>
          have hcne : i ≠ c.index := by
            intro hcon
            exact chunkByteSize_zero_out_of_range fileSize c.index hsz (hcon ▸ hi)
          refine handleChunkError_covered _ c i ?_
          unfold coveredIn
          rcases ih with hq2 | ha | hc | hf
          · rw [queue_head_decomp _ c hq, List.map_cons, List.mem_cons] at hq2
            rcases hq2 with rfl | ht
            · exact absurd rfl hcne
            · exact Or.inl ht
          · exact Or.inr (Or.inl ha)
          · exact Or.inr (Or.inr (Or.inl hc))
          · exact Or.inr (Or.inr (Or.inr hf))
      | succeed a ha =>
          rcases ih with hq2 | ha2 | hc | hf
          · exact Or.inl hq2
          · by_cases hik : i = a.chunk.index
            · exact Or.inr (Or.inr (Or.inl (by simp [applySuccess, hik])))
            · exact Or.inr (Or.inl (mapDelete_key_mem _ _ _ ha2 hik))
          · exact Or.inr (Or.inr (Or.inl (by
              simp only [applySuccess]
              exact Finset.mem_insert.mpr (Or.inr hc))))
          · exact Or.inr (Or.inr (Or.inr hf))
      | fail a ha =>
          refine handleChunkError_covered _ a.chunk i ?_
          exact ih
      | timerFire c deadline hmem hd =>
          rcases ih with hq2 | ha2 | hc | hf
          · rw [List.mem_map] at hq2
            obtain ⟨x, hx, rfl⟩ := hq2
            exact Or.inl (List.mem_map.mpr ⟨x, List.mem_cons_of_mem _ hx, rfl⟩)
          · exact Or.inr (Or.inl ha2)
          · exact Or.inr (Or.inr (Or.inl hc))
          · exact Or.inr (Or.inr (Or.inr hf))
      | stallSweep =>
          rename_i s
          have hcons := active_keys_consistent adaptive fileSize _ hr
          rcases ih with hq2 | ha2 | hc | hf
          · exact Or.inl (by
              rw [List.mem_map] at hq2 ⊢
              obtain ⟨x, hx, rfl⟩ := hq2
              exact ⟨x, mem_foldl_cons_init _ _ _ x hx, rfl⟩)
          · rw [List.mem_map] at ha2
            obtain ⟨p, hp, rfl⟩ := ha2
            by_cases hstale : isStale s.clock p = true
            · refine Or.inl ?_
              rw [List.mem_map]
              refine ⟨{ p.2.chunk with retries := p.2.chunk.retries + 1 },
                mem_foldl_cons_elem _ _ _ p (List.mem_filter.mpr ⟨hp, hstale⟩), ?_⟩
              simpa using hcons p hp
            · refine Or.inr (Or.inl ?_)
              rw [List.mem_map]
              exact ⟨p, List.mem_filter.mpr ⟨hp, by simpa using hstale⟩, rfl⟩
          · exact Or.inr (Or.inr (Or.inl hc))
          · exact Or.inr (Or.inr (Or.inr hf))

theorem part_states_cover_witness :
    0 < totalChunksOf 9000000 ∧
    (0 ∈ (initState false 9000000).queue.map Chunk.index ∨
     0 ∈ (initState false 9000000).active.map Prod.fst ∨
     0 ∈ (initState false 9000000).completed ∨
     0 ∈ (initState false 9000000).failed) :=
  ⟨by decide, part_states_cover false 9000000 _ Reachable.init 0 (by decide)⟩

/-- C4 counterexample trace: the first chunk of a two-chunk upload is
dispatched, its transfer fails retryably (its `activeUploads` entry is
not removed), the 2 s backoff elapses and the timer unshifts it back onto
the queue — leaving index 0 simultaneously Pending and InFlight. -/
def c4Bad : MgrState :=
  applyTimerFire
    (applyTick
      (applyFail (applyDispatch (initState false 9000000) (chunkOf 2 0))
        ⟨chunkOf 2 0, 0⟩)
      2000)
    { chunkOf 2 0 with retries := 1 } 2000

/-- C4 counterexample.  `c4Bad` is reachable in the fixed variant on a
9000000-byte file (2 chunks), yet part index 0 is in `uploadQueue` and in
`activeUploads` at the same time: Pending and InFlight are not disjoint,
refuting the exactly-one-state claim. -/
theorem part_in_two_states :
    Reachable false 9000000 c4Bad ∧
    0 ∈ c4Bad.active.map Prod.fst ∧
    0 ∈ c4Bad.queue.map Chunk.index := by
  refine ⟨?_, by decide, by decide⟩
  exact Reachable.step
    (Reachable.step
      (Reachable.step
        (Reachable.step Reachable.init
          (Step.dispatch _ (chunkOf 2 0) (by decide) (by decide) (by decide)))
        (Step.fail _ ⟨chunkOf 2 0, 0⟩ (by decide)))
      (Step.tick _ 2000))
    (Step.timerFire _ { chunkOf 2 0 with retries := 1 } 2000 (by decide) (by decide))

theorem handleChunkError_failed_superset (st : MgrState) (c : Chunk) :
    st.failed ⊆ (handleChunkError st c).failed := by
  unfold handleChunkError
  split
  · exact Finset.Subset.refl _
  · exact Finset.subset_insert _ _

theorem step_failed_monotone (adaptive : Bool) (fileSize : ℕ)
    (st₁ st₂ : MgrState) (hs : Step adaptive fileSize st₁ st₂) :
    st₁.failed ⊆ st₂.failed := by
  cases hs with
  | tick t => exact Finset.Subset.refl _
  | dispatch c hq hK hsz => exact Finset.Subset.refl _
  | dispatchEmpty c hq hK hsz =>
      exact handleChunkError_failed_superset { st₁ with queue := st₁.queue.tail } c
  | succeed a ha => exact Finset.Subset.refl _
  | fail a ha =>
      exact handleChunkError_failed_superset
        { st₁ with inflight := st₁.inflight.erase a } a.chunk
  | timerFire c deadline hmem hd => exact Finset.Subset.refl _
  | stallSweep => exact Finset.Subset.refl _

/-- Iterated attempt failures of one part: each failure runs
`handleChunkError` on the worker's current `chunkInfo`; when the chunk is
re-enqueued (retry branch) its `retries` field has been incremented, so
the next failing attempt carries the incremented counter. -/
def failLoop : ℕ → MgrState × Chunk → MgrState × Chunk
  | 0, p => p
  | n + 1, (st, c) =>
      failLoop n (handleChunkError st c,
        if c.retries < c.maxRetries then { c with retries := c.retries + 1 } else c)

/-- C5.  The retry policy: a failure with `retries < maxRetries`
increments the counter by exactly one and schedules a timer that, once
its `1000 * 2^retries` ms delay (with `retries` the updated counter) has
elapsed, re-enqueues the part at the FRONT of the queue; at the budget
the index joins the failed set, its active entry is removed, the queue
and timers are untouched, and the failed set only ever grows afterwards.
A fresh part (`retries = 0`, `maxRetries = 3`) that fails 4 times lands
in Failed; after only 3 failures it is not yet Failed. -/
theorem retry_policy (st : MgrState) (c : Chunk) :
    (c.retries < c.maxRetries →
      handleChunkError st c
        = { st with timers := st.timers ++ [({ c with retries := c.retries + 1 },
              st.clock + 2 ^ (c.retries + 1) * 1000)] }) ∧
    (c.maxRetries ≤ c.retries →
      handleChunkError st c
        = { st with failed := insert c.index st.failed,
                    active := mapDelete st.active c.index }) ∧
    (∀ (adaptive : Bool) (fileSize : ℕ) (c' : Chunk) (deadline : ℕ),
      (c', deadline) ∈ st.timers → deadline ≤ st.clock →
      Step adaptive fileSize st (applyTimerFire st c' deadline) ∧
      (applyTimerFire st c' deadline).queue = c' :: st.queue) ∧
    (∀ (adaptive : Bool) (fileSize : ℕ) (st₂ : MgrState),
      Step adaptive fileSize st st₂ → st.failed ⊆ st₂.failed) ∧
    (c.retries = 0 → c.maxRetries = 3 → c.index ∉ st.failed →
      c.index ∉ (failLoop 3 (st, c)).1.failed ∧
      c.index ∈ (failLoop 4 (st, c)).1.failed) := by
  refine ⟨?_, ?_, ?_, ?_, ?_⟩
  · intro h
    unfold handleChunkError
    rw [if_pos h]
  · intro h
    unfold handleChunkError
    rw [if_neg (not_lt.mpr h)]
  · intro adaptive fileSize c' deadline hmem hd
    exact ⟨Step.timerFire st c' deadline hmem hd, rfl⟩
  · intro adaptive fileSize st₂ hs
    exact step_failed_monotone adaptive fileSize st st₂ hs
  · rintro h0 h3 hnot
    obtain ⟨i, r, mr, pr⟩ := c
    simp only at h0 h3
    subst h0
    subst h3
    constructor
    · simpa [failLoop, handleChunkError] using hnot
    · simp [failLoop, handleChunkError]

theorem retry_policy_witness :
    handleChunkError (initState false 9000000) (chunkOf 2 0)
      = { initState false 9000000 with
          timers := [({ chunkOf 2 0 with retries := 1 }, 2000)] } ∧
    (chunkOf 2 0).index ∉ (failLoop 3 (initState false 9000000, chunkOf 2 0)).1.failed ∧
    (chunkOf 2 0).index ∈ (failLoop 4 (initState false 9000000, chunkOf 2 0)).1.failed := by
  refine ⟨?_, ?_⟩
  · rw [(retry_policy (initState false 9000000) (chunkOf 2 0)).1 (by decide)]
    decide
  · exact (retry_policy (initState false 9000000) (chunkOf 2 0)).2.2.2.2 rfl rfl (by decide)

theorem mapSet_length_le (k : ℕ) (v : Attempt) :
    ∀ m : List (ℕ × Attempt), (mapSet m k v).length ≤ m.length + 1 := by
  intro m
  induction m with
  | nil => simp [mapSet]
  | cons p rest ih =>
      obtain ⟨k', v'⟩ := p
      by_cases hk : k' = k
      · simp [mapSet, hk]
      · simp only [mapSet, if_neg hk, List.length_cons]
        omega

theorem mapDelete_length_le (m : List (ℕ × Attempt)) (k : ℕ) :
    (mapDelete m k).length ≤ m.length :=
  List.length_filter_le _ _

theorem handleChunkError_K (st : MgrState) (c : Chunk) :
    (handleChunkError st c).currentConcurrency = st.currentConcurrency := by
  unfold handleChunkError
  split <;> rfl

theorem handleChunkError_active_length (st : MgrState) (c : Chunk) :
    (handleChunkError st c).active.length ≤ st.active.length := by
  unfold handleChunkError
  split
  · exact le_refl _
  · exact mapDelete_length_le _ _

/-- C6 amended (fixed variant).  In the fixed-concurrency variant the
bound is the constant `CONCURRENCY = 6` and the size of `activeUploads`
never exceeds it at any reachable state: dispatch is guarded by
`activeUploads.size < CONCURRENCY` (checked in the same synchronous block
as the `shift` and the `set`) and every other transition leaves the map
no larger.  (In the adaptive variant the analogous bound can be violated
after a concurrency decrease — see the counterexample.) -/
theorem fixed_variant_concurrency_bound (fileSize : ℕ) (st : MgrState)
    (h : Reachable false fileSize st) :
    st.currentConcurrency = 6 ∧ st.active.length ≤ 6 := by
  induction h with
  | init => exact ⟨rfl, by simp [initState]⟩
  | step hr hs ih =>
      obtain ⟨ihK, ihlen⟩ := ih
      cases hs with
      | tick t => exact ⟨ihK, ihlen⟩
      | dispatch c hq hK hsz =>
          rename_i s
          refine ⟨ihK, ?_⟩
          have h1 := mapSet_length_le c.index ⟨c, s.clock⟩ s.active
          rw [ihK] at hK
          show (mapSet s.active c.index ⟨c, s.clock⟩).length ≤ 6
          omega
      | dispatchEmpty c hq hK hsz =>
          rename_i s
          refine ⟨?_, ?_⟩
          · rw [handleChunkError_K]
            exact ihK
          · exact le_trans
              (handleChunkError_active_length { s with queue := s.queue.tail } c) ihlen
      | succeed a ha =>
          rename_i s
          refine ⟨?_, ?_⟩
          · show (applySuccess false fileSize s a).currentConcurrency = 6
            simp only [applySuccess]
            simpa using ihK
          · show (mapDelete s.active a.chunk.index).length ≤ 6
            exact le_trans (mapDelete_length_le _ _) ihlen
      | fail a ha =>
          rename_i s
          refine ⟨?_, ?_⟩
          · show (handleChunkError { s with inflight := s.inflight.erase a }
                a.chunk).currentConcurrency = 6
            rw [handleChunkError_K]
            exact ihK
          · exact le_trans
              (handleChunkError_active_length
                { s with inflight := s.inflight.erase a } a.chunk) ihlen
      | timerFire c deadline hmem hd => exact ⟨ihK, ihlen⟩
      | stallSweep =>
          exact ⟨ihK, le_trans (List.length_filter_le _ _) ihlen⟩

theorem fixed_variant_concurrency_bound_witness :
    (initState false 9000000).currentConcurrency = 6 ∧
    (initState false 9000000).active.length ≤ 6 :=
  fixed_variant_concurrency_bound 9000000 (initState false 9000000) Reachable.init

/-! C6 counterexample trace (adaptive variant, 52428799-byte file = 7
chunks: six of 8 MiB and a 2097151-byte last chunk).  Chunks 0, 6, 1, 2
are dispatched at t=0; the stall sweep at t=40000 reclaims all four
without cancelling their XHRs; the retried copies are dispatched at
t=40100 and three of them complete (samples ≈13.4, ≈11.2, ≈2.4 Mbps),
letting chunks 3, 4, 5 refill the pool to the bound of 4.  At t=48000 the
original, stale XHR of chunk 2 also completes: its
`activeUploads.delete(2)` is a no-op, `completedChunks` already contains
2 so its size stays 3, the `size % 3 === 0` adjustment fires, the fourth
sample (≈1.4 Mbps) drags the weighted average below 5, and
`currentConcurrency` drops to 3 while `activeUploads` still holds four
entries. -/

def c6s1 : MgrState := applyDispatch (initState true 52428799) (chunkOf 7 0)
def c6s2 : MgrState := applyDispatch c6s1 (chunkOf 7 6)
def c6s3 : MgrState := applyDispatch c6s2 (chunkOf 7 1)
def c6s4 : MgrState := applyDispatch c6s3 (chunkOf 7 2)
def c6s5 : MgrState := applyTick c6s4 40000
def c6s6 : MgrState := applyStallSweep c6s5
def c6s7 : MgrState := applyTick c6s6 100
def c6s8 : MgrState := applyDispatch c6s7 { chunkOf 7 2 with retries := 1 }
def c6s9 : MgrState := applyDispatch c6s8 { chunkOf 7 1 with retries := 1 }
def c6s10 : MgrState := applyDispatch c6s9 { chunkOf 7 6 with retries := 1 }
def c6s11 : MgrState := applyDispatch c6s10 { chunkOf 7 0 with retries := 1 }
def c6s12 : MgrState := applyTick c6s11 5000
def c6s13 : MgrState :=
  applySuccess true 52428799 c6s12 ⟨{ chunkOf 7 2 with retries := 1 }, 40100⟩
def c6s14 : MgrState := applyDispatch c6s13 (chunkOf 7 3)
def c6s15 : MgrState := applyTick c6s14 1000
def c6s16 : MgrState :=
  applySuccess true 52428799 c6s15 ⟨{ chunkOf 7 1 with retries := 1 }, 40100⟩
def c6s17 : MgrState := applyDispatch c6s16 (chunkOf 7 4)
def c6s18 : MgrState := applyTick c6s17 1000
def c6s19 : MgrState :=
  applySuccess true 52428799 c6s18 ⟨{ chunkOf 7 6 with retries := 1 }, 40100⟩
def c6s20 : MgrState := applyDispatch c6s19 (chunkOf 7 5)
def c6s21 : MgrState := applyTick c6s20 900
def c6Bad : MgrState := applySuccess true 52428799 c6s21 ⟨chunkOf 7 2, 0⟩

unseal Rat.mul Rat.inv Rat.add in
/-- C6 counterexample.  `c6Bad` is reachable in the adaptive variant on a
52428799-byte file, yet it has four `activeUploads` entries while
`currentConcurrency` is 3: the InFlight count exceeds the current dynamic
bound, refuting the claim for the adaptive variant. -/
theorem adaptive_bound_violated :
    Reachable true 52428799 c6Bad ∧
    c6Bad.currentConcurrency < c6Bad.active.length := by
  constructor
  · have h0 : Reachable true 52428799 (initState true 52428799) := Reachable.init
    have h1 : Reachable true 52428799 c6s1 := Reachable.step h0
      (Step.dispatch (initState true 52428799) (chunkOf 7 0)
        (by decide) (by decide) (by decide))
    have h2 : Reachable true 52428799 c6s2 := Reachable.step h1
      (Step.dispatch c6s1 (chunkOf 7 6) (by decide) (by decide) (by decide))
    have h3 : Reachable true 52428799 c6s3 := Reachable.step h2
      (Step.dispatch c6s2 (chunkOf 7 1) (by decide) (by decide) (by decide))
    have h4 : Reachable true 52428799 c6s4 := Reachable.step h3
      (Step.dispatch c6s3 (chunkOf 7 2) (by decide) (by decide) (by decide))
    have h5 : Reachable true 52428799 c6s5 := Reachable.step h4 (Step.tick c6s4 40000)
    have h6 : Reachable true 52428799 c6s6 := Reachable.step h5 (Step.stallSweep c6s5)
    have h7 : Reachable true 52428799 c6s7 := Reachable.step h6 (Step.tick c6s6 100)
    have h8 : Reachable true 52428799 c6s8 := Reachable.step h7
      (Step.dispatch c6s7 { chunkOf 7 2 with retries := 1 }
        (by decide) (by decide) (by decide))
    have h9 : Reachable true 52428799 c6s9 := Reachable.step h8
      (Step.dispatch c6s8 { chunkOf 7 1 with retries := 1 }
        (by decide) (by decide) (by decide))
    have h10 : Reachable true 52428799 c6s10 := Reachable.step h9
      (Step.dispatch c6s9 { chunkOf 7 6 with retries := 1 }
        (by decide) (by decide) (by decide))
    have h11 : Reachable true 52428799 c6s11 := Reachable.step h10
      (Step.dispatch c6s10 { chunkOf 7 0 with retries := 1 }
        (by decide) (by decide) (by decide))
    have h12 : Reachable true 52428799 c6s12 := Reachable.step h11 (Step.tick c6s11 5000)
    have h13 : Reachable true 52428799 c6s13 := Reachable.step h12
      (Step.succeed c6s12 ⟨{ chunkOf 7 2 with retries := 1 }, 40100⟩ (by decide))
    have h14 : Reachable true 52428799 c6s14 := Reachable.step h13
      (Step.dispatch c6s13 (chunkOf 7 3) (by decide) (by decide) (by decide))
    have h15 : Reachable true 52428799 c6s15 := Reachable.step h14 (Step.tick c6s14 1000)
    have h16 : Reachable true 52428799 c6s16 := Reachable.step h15
      (Step.succeed c6s15 ⟨{ chunkOf 7 1 with retries := 1 }, 40100⟩ (by decide))
    have h17 : Reachable true 52428799 c6s17 := Reachable.step h16
      (Step.dispatch c6s16 (chunkOf 7 4) (by decide) (by decide) (by decide))
    have h18 : Reachable true 52428799 c6s18 := Reachable.step h17 (Step.tick c6s17 1000)
    have h19 : Reachable true 52428799 c6s19 := Reachable.step h18
      (Step.succeed c6s18 ⟨{ chunkOf 7 6 with retries := 1 }, 40100⟩ (by decide))
    have h20 : Reachable true 52428799 c6s20 := Reachable.step h19
      (Step.dispatch c6s19 (chunkOf 7 5) (by decide) (by decide) (by decide))
    have h21 : Reachable true 52428799 c6s21 := Reachable.step h20 (Step.tick c6s20 900)
    exact Reachable.step h21 (Step.succeed c6s21 ⟨chunkOf 7 2, 0⟩ (by decide))
  · decide

end VideonestSDK
